import Mathlib

/-!
Shallow embedding of the exam-analyzer application (src/app.py) and proofs
about its specification claims.

The application is a single-file Streamlit program.  We embed, faithfully to
the Python source:
  * `extract_questions_from_pdf` (the text-processing part; PDF text
    extraction itself is an external black box producing a text blob),
  * `load_answer_key` (the CSV reading primitive is a black box that either
    yields rows or fails; the try/except wrapper is embedded),
  * the module-level scoring loop (lines 165-200),
  * the answer-radio handling and navigation (session state machine),
  * `save_score` / `get_history` (the CSV store is a black box keyed by
    whether the file exists).

Python dictionaries are modelled as association lists with insertion-order
update-in-place semantics (`dictInsert`), Python strings as Lean `String`
(the regex scanning works on `List Char`).
-/

namespace ExamAnalyzer

/-! ## Python primitives: whitespace, digits, strip, upper -/

/-- The ASCII whitespace characters recognised by Python's regex `\s` class
and by `str.strip()`. -/
def pyIsSpace (c : Char) : Bool :=
  c == ' ' || c == '\t' || c == '\n' || c == '\r' || c == '\x0b' || c == '\x0c'

/-- Python `str.strip()` on a character list: drop leading and trailing
whitespace. -/
def pyStrip (l : List Char) : List Char :=
  ((l.dropWhile pyIsSpace).reverse.dropWhile pyIsSpace).reverse

/-- ASCII uppercasing of a single character (Python `str.upper`). -/
def pyUpperChar (c : Char) : Char :=
  if c.isLower then Char.ofNat (c.toNat - 32) else c

/-- Python `str.upper()` on a string (ASCII model). -/
def pyUpperStr (s : String) : String :=
  String.mk (s.data.map pyUpperChar)

/-- Python `str.strip()` on a string. -/
def pyStripStr (s : String) : String :=
  String.mk (pyStrip s.data)

/-! ## Python dict model

A Python dict is an association list with unique keys: `d[k] = v` updates the
entry in place when `k` is present and appends it otherwise (insertion order
semantics).  Lookup returns the (unique) entry for the key. -/

/-- Lookup `d.get(k)`: the value stored for key `k`, if any. -/
def dictGet {α β : Type} [DecidableEq α] : List (α × β) → α → Option β
  | [], _ => none
  | p :: rest, k => if p.1 = k then some p.2 else dictGet rest k

/-- Assignment `d[k] = v`: update in place when the key is present, append otherwise. -/
def dictInsert {α β : Type} [DecidableEq α] (l : List (α × β)) (k : α) (v : β) :
    List (α × β) :=
  if l.any (fun p => decide (p.1 = k)) then
    l.map (fun p => if p.1 = k then (k, v) else p)
  else
    l ++ [(k, v)]

/-- Building `dict(zip(ks, vs))`: build a dict from pairs by successive insertion
(last occurrence of a key wins). -/
def pyDict {α β : Type} [DecidableEq α] (l : List (α × β)) : List (α × β) :=
  l.foldl (fun d p => dictInsert d p.1 p.2) []

/-! ## Question extraction (src/app.py lines 24-38)

The Python code runs `re.findall(r'(\d+\.\s.*?)(?=\d+\.\s|$)', text, re.DOTALL)`
and strips each match.  We embed the regex semantics directly:

  * a *marker* (`\d+\.\s`) matches at a position when a maximal nonempty run
    of digits is followed by a period and one whitespace character;
  * `findall` scans left to right for the next marker, then the lazy `.*?`
    (with DOTALL, so it crosses newlines) extends minimally until the
    lookahead `(?=\d+\.\s|$)` succeeds; without MULTILINE, `$` matches at the
    end of the text and also just before a final newline;
  * scanning resumes at the end of the match (the lookahead consumes nothing).
-/

/-- Length of the leading run of ASCII digits. -/
def digitRun : List Char → Nat
  | [] => 0
  | c :: rest => if c.isDigit then digitRun rest + 1 else 0

/-- Does the regex `\d+\.\s` match at the head of `s`?  Returns the length of
the match (`digit run + 2`) when it does. -/
def markerAt (s : List Char) : Option Nat :=
  if 1 ≤ digitRun s ∧ s[digitRun s]? = some '.' ∧
      (s[digitRun s + 1]?).map pyIsSpace = some true then
    some (digitRun s + 2)
  else
    none

/-- Offset of the first position at which the marker pattern matches. -/
def findMarker : List Char → Option Nat
  | [] => none
  | c :: rest =>
    if (markerAt (c :: rest)).isSome then some 0
    else (findMarker rest).map (fun p => p + 1)

/-- Number of characters the lazy `.*?` consumes: it stops at the first
position where the lookahead `(?=\d+\.\s|$)` succeeds, i.e. at the next
marker, at the end of the text, or just before a final newline. -/
def lazyTailLen : List Char → Nat
  | [] => 0
  | c :: rest =>
    if (markerAt (c :: rest)).isSome = true ∨ c :: rest = ['\n'] then 0
    else lazyTailLen rest + 1

/-- The call `re.findall(r'(\d+\.\s.*?)(?=\d+\.\s|$)', text, re.DOTALL)`:
repeatedly find the next marker, extend lazily to the lookahead, emit the
match, and resume at its end.  `fuel` bounds the number of matches; each
match consumes at least three characters, so `text.length` is enough. -/
def reFindAll (fuel : Nat) (text : List Char) : List (List Char) :=
  match fuel with
  | 0 => []
  | fuel' + 1 =>
    match findMarker text with
    | none => []
    | some p =>
      let s := text.drop p
      match markerAt s with
      | none => []
      | some L =>
        let t := lazyTailLen (s.drop L)
        s.take (L + t) :: reFindAll fuel' ((s.drop L).drop t)

/-- The advisory placeholder returned when no question boundary is found. -/
def placeholderMsg : List Char :=
  ("Could not auto-detect questions. " ++
   "Please ensure PDF text is selectable and numbered (1. , 2. ).").data

/-- The function `extract_questions_from_pdf`, after the black-box PDF text extraction has
produced the page text blob: find all numbered question blocks; if none,
return the single advisory placeholder; otherwise strip each match. -/
def extract_questions_from_pdf (text : List Char) : List (List Char) :=
  let ms := reFindAll text.length text
  if ms.isEmpty then [placeholderMsg]
  else ms.map pyStrip

/-! ## Answer key loading (src/app.py lines 40-50) -/

/-- The pure row-transforming part of `load_answer_key`:
`dict(zip(df.iloc[:, 0], df.iloc[:, 1].str.upper().str.strip()))` —
keys are the first-column integers, values are the second-column strings
uppercased then stripped, built by successive dict insertion. -/
def load_answer_key_rows (rows : List (Int × String)) : List (Int × String) :=
  pyDict (rows.map (fun r => (r.1, pyStripStr (pyUpperStr r.2))))

/-- A first-column cell as the black-box CSV reader delivers it: pandas
infers an integer column when every token is numeric (the well-formed case
of `load_answer_key_rows`) and otherwise leaves the raw strings; the code
performs no coercion of its own. -/
inductive CSVKey where
  | num (i : Int)
  | txt (s : String)
  deriving DecidableEq, Repr

/-- The function `load_answer_key` with its try/except wrapper.  The CSV
reading primitive is a black box that either raises (unreadable structure, a
second column on which the string accessor fails, ...) or yields rows whose
first column is a `CSVKey` as pandas inferred it.  On an exception the code
shows `st.error(f"Error reading Answer Key: {e}")` and returns the empty
dict; on a successful read it builds
`dict(zip(df.iloc[:, 0], df.iloc[:, 1].str.upper().str.strip()))` over the
uncoerced first-column values — a non-numeric first column therefore flows
through silently.  The second component is the diagnostic message, when one
was shown. -/
def load_answer_key (source : Except String (List (CSVKey × String))) :
    List (CSVKey × String) × Option String :=
  match source with
  | Except.ok rows =>
      (pyDict (rows.map (fun r => (r.1, pyStripStr (pyUpperStr r.2)))), none)
  | Except.error e => ([], some ("Error reading Answer Key: " ++ e))

/-- The integer-keyed entries of a raw answer-key mapping: an integer
question-number lookup (as the scoring loop performs with
`real_key.get(q_num)`) sees exactly these. -/
def intEntries (m : List (CSVKey × String)) : List (Int × String) :=
  m.filterMap (fun p =>
    match p.1 with
    | CSVKey.num i => some (i, p.2)
    | CSVKey.txt _ => none)

/-! ## Scoring loop (src/app.py lines 165-200) -/

/-- One row of `results_data` (dict appended per question). -/
structure ResultRow where
  q_no : Nat
  your_answer : String
  correct_answer : String
  status : String
  deriving DecidableEq, Repr

/-- The loop state: the three counters and the accumulated rows. -/
structure ScoreAcc where
  correct_count : Nat
  wrong_count : Nat
  unattempted_count : Nat
  results_data : List ResultRow
  deriving DecidableEq, Repr

/-- The body of the scoring loop for question index `i` (0-based):
`q_num = i + 1`, `user_ans = user_answers.get(i, "Unattempted")`,
`correct_ans = real_key.get(q_num, "N/A")`, then the if/elif/else chain
updating exactly one counter and appending one result row. -/
def scoreStep (user_answers : List (Nat × String)) (real_key : List (Int × String))
    (acc : ScoreAcc) (i : Nat) : ScoreAcc :=
  let q_num := i + 1
  let user_ans := (dictGet user_answers i).getD "Unattempted"
  let correct_ans := (dictGet real_key (q_num : Int)).getD "N/A"
  if user_ans = "Unattempted" then
    { acc with
      unattempted_count := acc.unattempted_count + 1,
      results_data := acc.results_data ++ [⟨q_num, user_ans, correct_ans, "Unattempted"⟩] }
  else if user_ans = correct_ans then
    { acc with
      correct_count := acc.correct_count + 1,
      results_data := acc.results_data ++ [⟨q_num, user_ans, correct_ans, "Correct"⟩] }
  else if correct_ans ≠ "N/A" then
    { acc with
      wrong_count := acc.wrong_count + 1,
      results_data := acc.results_data ++ [⟨q_num, user_ans, correct_ans, "Wrong"⟩] }
  else
    { acc with
      results_data := acc.results_data ++ [⟨q_num, user_ans, correct_ans, "Key Missing"⟩] }

/-- The whole scoring loop: `for i in range(len(questions)): ...` starting
from zero counters and an empty row list. -/
def scoreExam (questions : List String) (user_answers : List (Nat × String))
    (real_key : List (Int × String)) : ScoreAcc :=
  (List.range questions.length).foldl (scoreStep user_answers real_key) ⟨0, 0, 0, []⟩

/-- The aggregate `final_score = (correct_count * positive_marks) - (wrong_count * negative_marks)`. -/
def final_score (acc : ScoreAcc) (positive_marks negative_marks : Int) : Int :=
  (acc.correct_count : Int) * positive_marks - (acc.wrong_count : Int) * negative_marks

/-! ## Session state machine (src/app.py lines 12-21, 93-99, 116-154, 228-231) -/

/-- The Streamlit session state fields relevant to the exam flow.
(`start_time` is real time and is not modelled.) -/
structure SessionState where
  answers : List (Nat × String)
  current_question : Nat
  exam_started : Bool
  exam_submitted : Bool
  questions : List String
  real_answer_key : List (Int × String)
  deriving DecidableEq, Repr

/-- The initial session state (lines 12-21): empty answers dict, question
index 0, neither started nor submitted. -/
def initState : SessionState :=
  ⟨[], 0, false, false, [], []⟩

/-- The answer-radio handling (lines 130-138): the selected option is stored
in the answers dict under the current question index, except that selecting
"Unattempted" writes nothing. -/
def handleAnswerRadio (s : SessionState) (answer : String) : SessionState :=
  if answer ≠ "Unattempted" then
    { s with answers := dictInsert s.answers s.current_question answer }
  else s

/-- The Start Mock Test button (lines 93-99): record the extracted questions
and the loaded key and mark the exam started. -/
def startExam (s : SessionState) (qs : List String) (key : List (Int × String)) :
    SessionState :=
  { s with questions := qs, real_answer_key := key, exam_started := true }

/-- The Previous button (lines 143-145), shown only when `idx > 0`. -/
def prevQuestion (s : SessionState) : SessionState :=
  if 0 < s.current_question then
    { s with current_question := s.current_question - 1 }
  else s

/-- The Next button (lines 147-150), shown only when `idx < len(questions) - 1`. -/
def nextQuestion (s : SessionState) : SessionState :=
  if s.current_question < s.questions.length - 1 then
    { s with current_question := s.current_question + 1 }
  else s

/-- The Submit Exam button (lines 152-154). -/
def submitExam (s : SessionState) : SessionState :=
  { s with exam_submitted := true }

/-- The reachable session states: the initial state, and everything the
buttons and the answer radio can produce from a reachable state, under the
guards the page structure imposes (the radio and navigation render only in
the exam-taking branch `exam_started and not exam_submitted`; the start
button only when not started; Take Another Test deletes the whole session
state, resetting it). -/
inductive Reachable : SessionState → Prop where
  | init : Reachable initState
  | start {s : SessionState} (qs : List String) (key : List (Int × String)) :
      Reachable s → s.exam_started = false → Reachable (startExam s qs key)
  | answer {s : SessionState} (a : String) :
      Reachable s → s.exam_started = true → s.exam_submitted = false →
      a ∈ ["Unattempted", "A", "B", "C", "D"] → Reachable (handleAnswerRadio s a)
  | prev {s : SessionState} :
      Reachable s → s.exam_started = true → s.exam_submitted = false →
      Reachable (prevQuestion s)
  | next {s : SessionState} :
      Reachable s → s.exam_started = true → s.exam_submitted = false →
      Reachable (nextQuestion s)
  | submit {s : SessionState} :
      Reachable s → s.exam_started = true → s.exam_submitted = false →
      Reachable (submitExam s)
  | reset {s : SessionState} :
      Reachable s → s.exam_submitted = true → Reachable initState

/-! ## History store (src/app.py lines 52-75)

The CSV file is a black box; we model the store as `Option (List HistoryRecord)`
(`none` = no file on disk).  `save_score` creates an empty store when absent,
reads it, appends the new row and writes it back; `get_history` reads the
store or returns an empty frame. -/

/-- One persisted history row, fields in the file's column order. -/
structure HistoryRecord where
  shift : String
  score : Int
  total_q : Nat
  correct : Nat
  wrong : Nat
  date : String
  deriving DecidableEq, Repr

/-- The function `save_score(shift_name, score, total_q, correct, wrong)`; the timestamp
`pd.Timestamp.now().strftime('%Y-%m-%d %H:%M')` is an external input `now`. -/
def save_score (store : Option (List HistoryRecord)) (shift_name : String)
    (score : Int) (total_q correct wrong : Nat) (now : String) :
    Option (List HistoryRecord) :=
  let base := match store with
    | none => []
    | some rows => rows
  some (base ++ [⟨shift_name, score, total_q, correct, wrong, now⟩])

/-- The function `get_history()`: the stored rows, or an empty frame when no file exists. -/
def get_history (store : Option (List HistoryRecord)) : List HistoryRecord :=
  match store with
  | some rows => rows
  | none => []

/-! ## Specification-side definitions

These follow the words of the specification, to be compared with the
source-derived definitions above. -/

/-- Spec-side splitting: each entry spans from its marker up to (but not
including) the next marker, or to the end of the text for the last entry. -/
def markerSpans (fuel : Nat) (text : List Char) : List (List Char) :=
  match fuel with
  | 0 => []
  | fuel' + 1 =>
    match findMarker text with
    | none => []
    | some p =>
      let s := text.drop p
      match markerAt s with
      | none => []
      | some L =>
        match findMarker (s.drop L) with
        | none => [s]
        | some q => s.take (L + q) :: markerSpans fuel' ((s.drop L).drop q)

/-- Spec-side count of the (leftmost, non-overlapping) occurrences of the
boundary pattern: walk the text; at a match, count it and skip past it,
otherwise advance one character. -/
def markerCount (fuel : Nat) (text : List Char) : Nat :=
  match fuel, text with
  | 0, _ => 0
  | _, [] => 0
  | fuel' + 1, c :: rest =>
    match markerAt (c :: rest) with
    | some L => markerCount fuel' ((c :: rest).drop L) + 1
    | none => markerCount fuel' rest

/-- Spec-side per-question classification, in the spec's priority order. -/
def classifyStatus (user_ans correct_ans : String) : String :=
  if user_ans = "Unattempted" then "Unattempted"
  else if user_ans = correct_ans then "Correct"
  else if correct_ans ≠ "N/A" then "Wrong"
  else "Key Missing"

/-- Spec-side result row for question index `i`. -/
def specRow (user_answers : List (Nat × String)) (real_key : List (Int × String))
    (i : Nat) : ResultRow :=
  let user_ans := (dictGet user_answers i).getD "Unattempted"
  let correct_ans := (dictGet real_key ((i + 1 : Nat) : Int)).getD "N/A"
  ⟨i + 1, user_ans, correct_ans, classifyStatus user_ans correct_ans⟩

/-! ## Lemmas about the dict model -/

theorem dictGet_cons {α β : Type} [DecidableEq α] (p : α × β) (l : List (α × β)) (k : α) :
    dictGet (p :: l) k = if p.1 = k then some p.2 else dictGet l k := rfl

theorem dictGet_mem {α β : Type} [DecidableEq α] {l : List (α × β)} {k : α} {v : β}
    (h : dictGet l k = some v) : (k, v) ∈ l := by
  induction l with
  | nil => simp [dictGet] at h
  | cons p rest ih =>
    rw [dictGet_cons] at h
    by_cases hk : p.1 = k
    · rw [if_pos hk] at h
      injection h with h2
      have hpe : (k, v) = p := by
        rw [Prod.ext_iff]
        exact ⟨hk.symm, h2.symm⟩
      rw [hpe]
      exact List.mem_cons_self p rest
    · rw [if_neg hk] at h
      exact List.mem_cons_of_mem p (ih h)

theorem dictGet_mapReplace_ne {α β : Type} [DecidableEq α] {k j : α} (v : β)
    (hjk : j ≠ k) (l : List (α × β)) :
    dictGet (l.map (fun p => if p.1 = k then (k, v) else p)) j = dictGet l j := by
  have hkj : ¬(k = j) := fun h => hjk h.symm
  induction l with
  | nil => rfl
  | cons p rest ih =>
    by_cases hpk : p.1 = k
    · have hpj : ¬(p.1 = j) := fun h => hkj (hpk.symm.trans h)
      simp [List.map_cons, if_pos hpk, dictGet_cons, if_neg hpj, if_neg hkj, ih]
    · by_cases hpj : p.1 = j
      · simp [List.map_cons, if_neg hpk, dictGet_cons, if_pos hpj]
      · simp [List.map_cons, if_neg hpk, dictGet_cons, if_neg hpj, ih]

theorem dictGet_mapReplace_self {α β : Type} [DecidableEq α] {k : α} (v : β)
    {l : List (α × β)} (hany : l.any (fun p => decide (p.1 = k)) = true) :
    dictGet (l.map (fun p => if p.1 = k then (k, v) else p)) k = some v := by
  induction l with
  | nil => simp at hany
  | cons p rest ih =>
    by_cases hpk : p.1 = k
    · simp [dictGet_cons, hpk]
    · simp only [List.any_cons, Bool.or_eq_true, decide_eq_true_eq] at hany
      rcases hany with h1 | h2
      · exact absurd h1 hpk
      · simp [dictGet_cons, hpk, ih h2]

theorem dictGet_append_new {α β : Type} [DecidableEq α] {k : α} (j : α) (v : β)
    (l : List (α × β)) :
    dictGet (l ++ [(k, v)]) j =
      if (dictGet l j).isSome then dictGet l j else if k = j then some v else none := by
  induction l with
  | nil => simp [dictGet, dictGet_cons]
  | cons p rest ih =>
    by_cases hpj : p.1 = j
    · simp [dictGet_cons, hpj]
    · simp [dictGet_cons, hpj, ih]

theorem dictGet_dictInsert {α β : Type} [DecidableEq α] (l : List (α × β)) (k j : α) (v : β) :
    dictGet (dictInsert l k v) j = if j = k then some v else dictGet l j := by
  unfold dictInsert
  split
  · rename_i hany
    by_cases hjk : j = k
    · rw [if_pos hjk, hjk, dictGet_mapReplace_self v hany]
    · rw [if_neg hjk, dictGet_mapReplace_ne v hjk]
  · rename_i hany
    rw [dictGet_append_new j v l]
    have hnone : dictGet l k = none := by
      rw [Bool.not_eq_true, List.any_eq_false] at hany
      cases hget : dictGet l k with
      | none => rfl
      | some w =>
        have := dictGet_mem hget
        have h2 := hany (k, w) this
        simp at h2
    by_cases hjk : j = k
    · rw [if_pos hjk, hjk, hnone]
      simp
    · rw [if_neg hjk]
      cases hget : dictGet l j with
      | some w => simp [hget]
      | none => simp [hget, if_neg (fun h : k = j => hjk h.symm)]

theorem mem_dictInsert {α β : Type} [DecidableEq α] {q : α × β} {l : List (α × β)}
    {k : α} {v : β} (h : q ∈ dictInsert l k v) : q.2 = v ∨ q ∈ l := by
  unfold dictInsert at h
  split at h
  · obtain ⟨r, hr, hfr⟩ := List.mem_map.mp h
    by_cases hrk : r.1 = k
    · rw [if_pos hrk] at hfr
      left
      rw [Prod.ext_iff] at hfr
      exact hfr.2.symm ▸ rfl
    · rw [if_neg hrk] at hfr
      right
      exact hfr ▸ hr
  · rcases List.mem_append.mp h with h1 | h2
    · exact Or.inr h1
    · left
      simp only [List.mem_singleton] at h2
      rw [h2]

/-! ## Lemmas about the scoring loop -/

/-- The scoring loop as a function of the number of questions. -/
def scoreLoop (ua : List (Nat × String)) (key : List (Int × String)) (n : Nat) : ScoreAcc :=
  (List.range n).foldl (scoreStep ua key) ⟨0, 0, 0, []⟩

theorem scoreExam_eq_scoreLoop (qs : List String) (ua : List (Nat × String))
    (key : List (Int × String)) : scoreExam qs ua key = scoreLoop ua key qs.length := rfl

theorem scoreLoop_succ (ua : List (Nat × String)) (key : List (Int × String)) (n : Nat) :
    scoreLoop ua key (n + 1) = scoreStep ua key (scoreLoop ua key n) n := by
  unfold scoreLoop
  rw [List.range_succ, List.foldl_append, List.foldl_cons, List.foldl_nil]

theorem scoreStep_spec (ua : List (Nat × String)) (key : List (Int × String))
    (acc : ScoreAcc) (i : Nat) :
    (scoreStep ua key acc i).results_data = acc.results_data ++ [specRow ua key i] ∧
    (scoreStep ua key acc i).correct_count =
      acc.correct_count + (if (specRow ua key i).status == "Correct" then 1 else 0) ∧
    (scoreStep ua key acc i).wrong_count =
      acc.wrong_count + (if (specRow ua key i).status == "Wrong" then 1 else 0) ∧
    (scoreStep ua key acc i).unattempted_count =
      acc.unattempted_count + (if (specRow ua key i).status == "Unattempted" then 1 else 0) := by
  simp only [scoreStep, specRow, classifyStatus]
  split_ifs <;> simp_all

theorem scoreLoop_inv (ua : List (Nat × String)) (key : List (Int × String)) (n : Nat) :
    (scoreLoop ua key n).results_data = (List.range n).map (specRow ua key) ∧
    (scoreLoop ua key n).correct_count =
      ((scoreLoop ua key n).results_data).countP (fun row => row.status == "Correct") ∧
    (scoreLoop ua key n).wrong_count =
      ((scoreLoop ua key n).results_data).countP (fun row => row.status == "Wrong") ∧
    (scoreLoop ua key n).unattempted_count =
      ((scoreLoop ua key n).results_data).countP (fun row => row.status == "Unattempted") := by
  induction n with
  | zero => exact ⟨rfl, rfl, rfl, rfl⟩
  | succ n ih =>
    obtain ⟨hrows, hc, hw, hu⟩ := ih
    obtain ⟨srows, sc, sw, su⟩ := scoreStep_spec ua key (scoreLoop ua key n) n
    rw [scoreLoop_succ]
    refine ⟨?_, ?_, ?_, ?_⟩
    · rw [srows, hrows, List.range_succ, List.map_append]
      rfl
    · rw [sc, srows, List.countP_append, hc]
      simp [List.countP_cons]
    · rw [sw, srows, List.countP_append, hw]
      simp [List.countP_cons]
    · rw [su, srows, List.countP_append, hu]
      simp [List.countP_cons]

theorem classifyStatus_cases (u c : String) :
    classifyStatus u c = "Unattempted" ∨ classifyStatus u c = "Correct" ∨
    classifyStatus u c = "Wrong" ∨ classifyStatus u c = "Key Missing" := by
  unfold classifyStatus
  split_ifs <;> simp

theorem countP_status_partition (rows : List ResultRow)
    (h : ∀ row ∈ rows, row.status = "Unattempted" ∨ row.status = "Correct" ∨
      row.status = "Wrong" ∨ row.status = "Key Missing") :
    rows.countP (fun row => row.status == "Correct") +
    rows.countP (fun row => row.status == "Wrong") +
    rows.countP (fun row => row.status == "Unattempted") +
    rows.countP (fun row => row.status == "Key Missing") = rows.length := by
  induction rows with
  | nil => simp
  | cons row rest ih =>
    have hrow := h row (List.mem_cons_self _ _)
    have hrest := ih (fun r hr => h r (List.mem_cons_of_mem _ hr))
    simp only [List.countP_cons, List.length_cons]
    rcases hrow with h1 | h1 | h1 | h1 <;> simp [h1] <;> omega

/-- C1: for every question list, recorded-answers map and answer key, the
scorer processes questions in index order with 1-based number `i + 1`; each
result row's user answer is the recorded answer defaulting to "Unattempted",
its key answer defaults to "N/A", its status follows the priority
Unattempted / Correct / Wrong / Key Missing, and each of the three counters
equals the number of rows carrying the corresponding status (so a Key
Missing row increments none of them). -/
theorem scoring_classification (qs : List String) (ua : List (Nat × String))
    (key : List (Int × String)) :
    (scoreExam qs ua key).results_data = (List.range qs.length).map (specRow ua key) ∧
    (scoreExam qs ua key).correct_count =
      ((scoreExam qs ua key).results_data).countP (fun row => row.status == "Correct") ∧
    (scoreExam qs ua key).wrong_count =
      ((scoreExam qs ua key).results_data).countP (fun row => row.status == "Wrong") ∧
    (scoreExam qs ua key).unattempted_count =
      ((scoreExam qs ua key).results_data).countP (fun row => row.status == "Unattempted") := by
  rw [scoreExam_eq_scoreLoop]
  exact scoreLoop_inv ua key qs.length

/-- C2: for every scoring run the counts reconcile: the three counters plus
the number of Key Missing rows equal the number of questions. -/
theorem scoring_reconciliation (qs : List String) (ua : List (Nat × String))
    (key : List (Int × String)) :
    (scoreExam qs ua key).correct_count + (scoreExam qs ua key).wrong_count +
    (scoreExam qs ua key).unattempted_count +
    ((scoreExam qs ua key).results_data).countP (fun row => row.status == "Key Missing") =
    qs.length := by
  rw [scoreExam_eq_scoreLoop]
  obtain ⟨hrows, hc, hw, hu⟩ := scoreLoop_inv ua key qs.length
  rw [hc, hw, hu]
  have hstat : ∀ row ∈ (scoreLoop ua key qs.length).results_data,
      row.status = "Unattempted" ∨ row.status = "Correct" ∨
      row.status = "Wrong" ∨ row.status = "Key Missing" := by
    intro row hrow
    rw [hrows] at hrow
    obtain ⟨i, _, hi⟩ := List.mem_map.mp hrow
    rw [← hi]
    exact classifyStatus_cases _ _
  rw [countP_status_partition _ hstat, hrows, List.length_map, List.length_range]

/-- C4: for every scoring run the aggregate score is
`correct_count * positive_marks - wrong_count * negative_marks`; and on the
concrete scenario (three questions, answers {0 ↦ "A", 1 ↦ "B"}, key
{1 ↦ "A", 2 ↦ "C", 3 ↦ "B"}, marks 4 and 1) the rows classify
Correct / Wrong / Unattempted with counts 1/1/1 and final score 3. -/
theorem final_score_spec :
    (∀ (acc : ScoreAcc) (pos neg : Int),
      final_score acc pos neg =
        (acc.correct_count : Int) * pos - (acc.wrong_count : Int) * neg) ∧
    (∀ qs : List String, qs.length = 3 →
      (scoreExam qs [(0, "A"), (1, "B")] [(1, "A"), (2, "C"), (3, "B")]).results_data.map
          (fun row => row.status) = ["Correct", "Wrong", "Unattempted"] ∧
      (scoreExam qs [(0, "A"), (1, "B")] [(1, "A"), (2, "C"), (3, "B")]).correct_count = 1 ∧
      (scoreExam qs [(0, "A"), (1, "B")] [(1, "A"), (2, "C"), (3, "B")]).wrong_count = 1 ∧
      (scoreExam qs [(0, "A"), (1, "B")] [(1, "A"), (2, "C"), (3, "B")]).unattempted_count = 1 ∧
      final_score (scoreExam qs [(0, "A"), (1, "B")] [(1, "A"), (2, "C"), (3, "B")]) 4 1 = 3) := by
  constructor
  · intro acc pos neg
    rfl
  · intro qs h
    rw [scoreExam_eq_scoreLoop, h]
    decide

/-- Witness for C4: the length-3 hypothesis holds of a concrete question
list and the scenario conclusion follows by the theorem. -/
theorem final_score_spec_witness :
    (["Q1", "Q2", "Q3"] : List String).length = 3 ∧
    ((scoreExam ["Q1", "Q2", "Q3"] [(0, "A"), (1, "B")]
        [(1, "A"), (2, "C"), (3, "B")]).results_data.map
          (fun row => row.status) = ["Correct", "Wrong", "Unattempted"] ∧
      (scoreExam ["Q1", "Q2", "Q3"] [(0, "A"), (1, "B")]
        [(1, "A"), (2, "C"), (3, "B")]).correct_count = 1 ∧
      (scoreExam ["Q1", "Q2", "Q3"] [(0, "A"), (1, "B")]
        [(1, "A"), (2, "C"), (3, "B")]).wrong_count = 1 ∧
      (scoreExam ["Q1", "Q2", "Q3"] [(0, "A"), (1, "B")]
        [(1, "A"), (2, "C"), (3, "B")]).unattempted_count = 1 ∧
      final_score (scoreExam ["Q1", "Q2", "Q3"] [(0, "A"), (1, "B")]
        [(1, "A"), (2, "C"), (3, "B")]) 4 1 = 3) :=
  ⟨rfl, final_score_spec.2 ["Q1", "Q2", "Q3"] rfl⟩

/-- C3 counterexample: in an in-progress session whose answers map holds
{0 ↦ "A"}, selecting "Unattempted" for question 0 does NOT remove the entry:
the session state is unchanged and the lookup still yields "A" (the claim
predicts the entry would be removed, i.e. the lookup would yield none). -/
theorem record_unattempted_keeps_entry :
    handleAnswerRadio ⟨[(0, "A")], 0, true, false, ["Q1"], []⟩ "Unattempted" =
      ⟨[(0, "A")], 0, true, false, ["Q1"], []⟩ ∧
    dictGet (handleAnswerRadio ⟨[(0, "A")], 0, true, false, ["Q1"], []⟩
        "Unattempted").answers 0 = some "A" := by
  constructor
  · rfl
  · rfl

/-- C3 (amended): in phase IN_PROGRESS, recording "Unattempted" leaves the
recorded-answers map (and the whole session state) unchanged — an existing
entry for the index is retained, not removed — while recording any of
"A"/"B"/"C"/"D" upserts the entry for the current question index; in both
cases the phase flags are unchanged. -/
theorem record_answer_amended (s : SessionState) (a : String)
    (_hstart : s.exam_started = true) (_hsub : s.exam_submitted = false) :
    (a = "Unattempted" → handleAnswerRadio s a = s) ∧
    (a ∈ ["A", "B", "C", "D"] →
      (handleAnswerRadio s a).answers = dictInsert s.answers s.current_question a ∧
      dictGet (handleAnswerRadio s a).answers s.current_question = some a ∧
      (∀ j : Nat, j ≠ s.current_question →
        dictGet (handleAnswerRadio s a).answers j = dictGet s.answers j)) ∧
    (handleAnswerRadio s a).exam_started = s.exam_started ∧
    (handleAnswerRadio s a).exam_submitted = s.exam_submitted := by
  refine ⟨?_, ?_, ?_, ?_⟩
  · intro ha
    simp [handleAnswerRadio, ha]
  · intro hmem
    have ha : a ≠ "Unattempted" := by
      simp only [List.mem_cons, List.not_mem_nil, or_false] at hmem
      rcases hmem with h | h | h | h <;> subst h <;> decide
    have hans : (handleAnswerRadio s a).answers =
        dictInsert s.answers s.current_question a := by
      simp [handleAnswerRadio, ha]
    refine ⟨hans, ?_, ?_⟩
    · rw [hans, dictGet_dictInsert]
      simp
    · intro j hj
      rw [hans, dictGet_dictInsert, if_neg hj]
  · unfold handleAnswerRadio
    split <;> rfl
  · unfold handleAnswerRadio
    split <;> rfl

/-- Witness for C3 (amended): a concrete in-progress session, answering "A". -/
theorem record_answer_amended_witness :
    (⟨[], 0, true, false, ["Q1"], []⟩ : SessionState).exam_started = true ∧
    (⟨[], 0, true, false, ["Q1"], []⟩ : SessionState).exam_submitted = false ∧
    (("A" : String) = "Unattempted" →
      handleAnswerRadio ⟨[], 0, true, false, ["Q1"], []⟩ "A" =
        ⟨[], 0, true, false, ["Q1"], []⟩) ∧
    (("A" : String) ∈ ["A", "B", "C", "D"] →
      (handleAnswerRadio ⟨[], 0, true, false, ["Q1"], []⟩ "A").answers =
        dictInsert (⟨[], 0, true, false, ["Q1"], []⟩ : SessionState).answers 0 "A" ∧
      dictGet (handleAnswerRadio ⟨[], 0, true, false, ["Q1"], []⟩ "A").answers 0 =
        some "A" ∧
      (∀ j : Nat, j ≠ 0 →
        dictGet (handleAnswerRadio ⟨[], 0, true, false, ["Q1"], []⟩ "A").answers j =
          dictGet (⟨[], 0, true, false, ["Q1"], []⟩ : SessionState).answers j)) ∧
    (handleAnswerRadio ⟨[], 0, true, false, ["Q1"], []⟩ "A").exam_started = true ∧
    (handleAnswerRadio ⟨[], 0, true, false, ["Q1"], []⟩ "A").exam_submitted = false :=
  ⟨rfl, rfl, record_answer_amended ⟨[], 0, true, false, ["Q1"], []⟩ "A" rfl rfl⟩

/-! ## Answer key parsing lemmas -/

theorem dictGet_pyDict {α β : Type} [DecidableEq α] (l : List (α × β)) (k : α) :
    dictGet (pyDict l) k =
      (l.reverse.find? (fun p => decide (p.1 = k))).map (fun p => p.2) := by
  induction l using List.reverseRecOn with
  | nil => rfl
  | append_singleton l p ih =>
    have hfold : pyDict (l ++ [p]) = dictInsert (pyDict l) p.1 p.2 := by
      unfold pyDict
      rw [List.foldl_append, List.foldl_cons, List.foldl_nil]
    rw [hfold, dictGet_dictInsert, List.reverse_append, List.reverse_singleton,
      List.singleton_append]
    by_cases hk : p.1 = k
    · rw [if_pos hk.symm, List.find?_cons_of_pos _ (by simp [hk])]
      rfl
    · rw [if_neg (fun h => hk h.symm), List.find?_cons_of_neg _ (by simp [hk]), ih]

/-- C7: for every sequence of answer-key rows, looking up any question number
in the parsed mapping yields exactly the transformed second column
(uppercased, then whitespace-trimmed) of the LAST row carrying that question
number, and nothing for numbers not occurring in the first column. -/
theorem answer_key_parse_spec (rows : List (Int × String)) (k : Int) :
    dictGet (load_answer_key_rows rows) k =
      (rows.reverse.find? (fun r => decide (r.1 = k))).map
        (fun r => pyStripStr (pyUpperStr r.2)) := by
  unfold load_answer_key_rows
  rw [dictGet_pyDict, ← List.map_reverse, List.find?_map, Option.map_map]
  rfl

/-! ## Answer key error handling -/

theorem dictGet_intEntries (m : List (CSVKey × String)) (q : Int) :
    dictGet (intEntries m) q = dictGet m (CSVKey.num q) := by
  induction m with
  | nil => rfl
  | cons p rest ih =>
    cases hk : p.1 with
    | num i =>
      have hstep : intEntries (p :: rest) = (i, p.2) :: intEntries rest := by
        simp [intEntries, hk]
      rw [hstep, dictGet_cons, dictGet_cons, hk]
      by_cases hiq : i = q
      · simp [hiq]
      · simp [hiq, ih]
    | txt s =>
      have hstep : intEntries (p :: rest) = intEntries rest := by
        simp [intEntries, hk]
      rw [hstep, dictGet_cons, hk]
      simp [ih]

/-- Coherence with the well-formed case: on a numeric first column (pandas
inferring integers) every integer lookup on the raw `load_answer_key` result
agrees with the integer-keyed transformer `load_answer_key_rows`. -/
theorem load_answer_key_num_coherent (rows : List (Int × String)) (q : Int) :
    dictGet (load_answer_key
        (Except.ok (rows.map (fun r => (CSVKey.num r.1, r.2))))).1 (CSVKey.num q) =
      dictGet (load_answer_key_rows rows) q := by
  have h1 : (load_answer_key
      (Except.ok (rows.map (fun r => (CSVKey.num r.1, r.2))))).1 =
      pyDict ((rows.map (fun r => (CSVKey.num r.1, r.2))).map
        (fun r => (r.1, pyStripStr (pyUpperStr r.2)))) := rfl
  rw [h1, dictGet_pyDict, answer_key_parse_spec, List.map_map, ← List.map_reverse,
    List.find?_map, Option.map_map]
  have hpred : ((fun p : CSVKey × String => decide (p.1 = CSVKey.num q)) ∘
      ((fun r : CSVKey × String => (r.1, pyStripStr (pyUpperStr r.2))) ∘
        (fun r : Int × String => (CSVKey.num r.1, r.2)))) =
      (fun r : Int × String => decide (r.1 = q)) := by
    funext r
    simp [Function.comp]
  rw [hpred]
  rfl

/-- C8 counterexample: the readable source whose first column is non-numeric
(the spec's own example of a malformed key, rows "Q1,a" and "Q2,b") is
accepted silently: no diagnostic is reported and the result is a non-empty
string-keyed mapping — contradicting the claim that a malformed source
yields a reported diagnostic, an empty AnswerKey, and never a silently
produced non-empty mapping. -/
theorem answer_key_malformed_silent :
    (load_answer_key (Except.ok [(CSVKey.txt "Q1", "a"), (CSVKey.txt "Q2", "b")])).1 =
      [(CSVKey.txt "Q1", "A"), (CSVKey.txt "Q2", "B")] ∧
    (load_answer_key (Except.ok [(CSVKey.txt "Q1", "a"), (CSVKey.txt "Q2", "b")])).2 =
      none ∧
    (load_answer_key (Except.ok [(CSVKey.txt "Q1", "a"), (CSVKey.txt "Q2", "b")])).1 ≠
      [] := by
  refine ⟨by decide, rfl, by decide⟩

/-- C8 (amended): when the answer-key read raises, the error is caught and
reported as a diagnostic rather than terminating the flow, and the caller
receives the empty mapping.  A malformed-but-readable source — a non-numeric
first column, which pandas leaves as strings and the code never coerces — is
instead accepted silently: no diagnostic, and the mapping may be non-empty,
but its keys match no integer question number.  In either case every integer
lookup misses, and under any mapping whose integer lookups all miss a
scoring run whose recorded answers hold only real options produces no
Correct and no Wrong rows: every row is Unattempted or Key Missing. -/
theorem answer_key_error_spec :
    (∀ e : String, load_answer_key (Except.error e) =
      ([], some ("Error reading Answer Key: " ++ e))) ∧
    (∀ rows : List (String × String),
      (load_answer_key (Except.ok (rows.map (fun r => (CSVKey.txt r.1, r.2))))).2 =
        none ∧
      (∀ q : Int,
        dictGet (load_answer_key
            (Except.ok (rows.map (fun r => (CSVKey.txt r.1, r.2))))).1
          (CSVKey.num q) = none)) ∧
    (∀ m : List (CSVKey × String), (∀ q : Int, dictGet m (CSVKey.num q) = none) →
      ∀ (qs : List String) (ua : List (Nat × String)),
        (∀ p ∈ ua, p.2 = "A" ∨ p.2 = "B" ∨ p.2 = "C" ∨ p.2 = "D") →
        (scoreExam qs ua (intEntries m)).correct_count = 0 ∧
        (scoreExam qs ua (intEntries m)).wrong_count = 0 ∧
        (∀ row ∈ (scoreExam qs ua (intEntries m)).results_data,
          row.status = "Unattempted" ∨ row.status = "Key Missing")) := by
  refine ⟨fun e => rfl, ?_, ?_⟩
  · intro rows
    refine ⟨rfl, ?_⟩
    intro q
    have h1 : (load_answer_key
        (Except.ok (rows.map (fun r => (CSVKey.txt r.1, r.2))))).1 =
        pyDict ((rows.map (fun r => (CSVKey.txt r.1, r.2))).map
          (fun r => (r.1, pyStripStr (pyUpperStr r.2)))) := rfl
    rw [h1, dictGet_pyDict]
    have hfind : ((rows.map (fun r => (CSVKey.txt r.1, r.2))).map
        (fun r => (r.1, pyStripStr (pyUpperStr r.2)))).reverse.find?
          (fun p => decide (p.1 = CSVKey.num q)) = none := by
      rw [List.find?_eq_none]
      intro x hx
      rw [List.mem_reverse] at hx
      obtain ⟨r, hr, hrx⟩ := List.mem_map.mp hx
      obtain ⟨r0, hr0, hr0x⟩ := List.mem_map.mp hr
      rw [← hrx, ← hr0x]
      simp
    rw [hfind]
    rfl
  · intro m hmiss qs ua hua
    have hkey : ∀ q : Int, dictGet (intEntries m) q = none :=
      fun q => (dictGet_intEntries m q).trans (hmiss q)
    rw [scoreExam_eq_scoreLoop]
    obtain ⟨hrows, hc, hw, hu⟩ := scoreLoop_inv ua (intEntries m) qs.length
    have hstat : ∀ row ∈ (scoreLoop ua (intEntries m) qs.length).results_data,
        row.status = "Unattempted" ∨ row.status = "Key Missing" := by
      intro row hrow
      rw [hrows] at hrow
      obtain ⟨i, _, hi⟩ := List.mem_map.mp hrow
      rw [← hi]
      cases hget : dictGet ua i with
      | none => simp [specRow, hget, classifyStatus]
      | some v =>
        have hv := hua (i, v) (dictGet_mem hget)
        simp only at hv
        have h1 : v ≠ "Unattempted" := by
          rcases hv with h | h | h | h <;> subst h <;> decide
        have h2 : v ≠ "N/A" := by
          rcases hv with h | h | h | h <;> subst h <;> decide
        simp [specRow, hget, classifyStatus, hkey, h1, h2]
    refine ⟨?_, ?_, hstat⟩
    · rw [hc, List.countP_eq_zero]
      intro row hrow
      rcases hstat row hrow with h | h <;> simp [h]
    · rw [hw, List.countP_eq_zero]
      intro row hrow
      rcases hstat row hrow with h | h <;> simp [h]

/-- Witness for C8 (amended): the concrete silently-parsed string-keyed
mapping misses every integer lookup, and scoring one question recorded "A"
against it yields only Unattempted or Key Missing rows. -/
theorem answer_key_error_spec_witness :
    (∀ q : Int,
      dictGet [(CSVKey.txt "Q1", "A"), (CSVKey.txt "Q2", "B")] (CSVKey.num q) =
        none) ∧
    (∀ p ∈ [((0 : Nat), "A")], p.2 = "A" ∨ p.2 = "B" ∨ p.2 = "C" ∨ p.2 = "D") ∧
    ((scoreExam ["Q1"] [(0, "A")]
        (intEntries [(CSVKey.txt "Q1", "A"), (CSVKey.txt "Q2", "B")])).correct_count =
        0 ∧
      (scoreExam ["Q1"] [(0, "A")]
        (intEntries [(CSVKey.txt "Q1", "A"), (CSVKey.txt "Q2", "B")])).wrong_count =
        0 ∧
      (∀ row ∈ (scoreExam ["Q1"] [(0, "A")]
          (intEntries [(CSVKey.txt "Q1", "A"), (CSVKey.txt "Q2", "B")])).results_data,
        row.status = "Unattempted" ∨ row.status = "Key Missing")) :=
  ⟨fun q => rfl, by decide,
    answer_key_error_spec.2.2 [(CSVKey.txt "Q1", "A"), (CSVKey.txt "Q2", "B")]
      (fun q => rfl) ["Q1"] [(0, "A")] (by decide)⟩

/-- C9: appending a history record and then listing returns the record
unchanged in every field, after all pre-existing records with order
preserved; and listing a nonexistent store yields the empty sequence. -/
theorem history_round_trip (store : Option (List HistoryRecord)) (shift_name : String)
    (score : Int) (total_q correct wrong : Nat) (now : String) :
    get_history (save_score store shift_name score total_q correct wrong now) =
      get_history store ++ [⟨shift_name, score, total_q, correct, wrong, now⟩] ∧
    get_history (none : Option (List HistoryRecord)) = [] := by
  constructor
  · cases store <;> rfl
  · rfl

/-! ## Session state invariant -/

theorem startExam_answers (s : SessionState) (qs : List String)
    (key : List (Int × String)) : (startExam s qs key).answers = s.answers := rfl

theorem prevQuestion_answers (s : SessionState) :
    (prevQuestion s).answers = s.answers := by
  unfold prevQuestion
  split <;> rfl

theorem nextQuestion_answers (s : SessionState) :
    (nextQuestion s).answers = s.answers := by
  unfold nextQuestion
  split <;> rfl

theorem submitExam_answers (s : SessionState) :
    (submitExam s).answers = s.answers := rfl

/-- C10: in every reachable session state, the recorded-answers map only ever
stores the four real option letters — the sentinel "Unattempted" is never a
stored value — so the scoring-time default lookup reads "Unattempted" exactly
when the index is absent from the map. -/
theorem answers_invariant (s : SessionState) (h : Reachable s) :
    (∀ p ∈ s.answers, p.2 = "A" ∨ p.2 = "B" ∨ p.2 = "C" ∨ p.2 = "D") ∧
    (∀ i : Nat,
      ((dictGet s.answers i).getD "Unattempted" = "Unattempted" ↔
        dictGet s.answers i = none)) := by
  have hmain : ∀ p ∈ s.answers, p.2 = "A" ∨ p.2 = "B" ∨ p.2 = "C" ∨ p.2 = "D" := by
    induction h with
    | init => simp [initState]
    | start qs key hr hst ih =>
      rw [startExam_answers]
      exact ih
    | answer a hr hst hsub hmem ih =>
      intro p hp
      by_cases ha : a = "Unattempted"
      · rw [show handleAnswerRadio _ a = _ from if_neg (by simp [ha])] at hp
        exact ih p hp
      · rw [show handleAnswerRadio _ a = _ from if_pos ha] at hp
        rcases mem_dictInsert hp with h2 | h2
        · simp only [List.mem_cons, List.not_mem_nil, or_false] at hmem
          rcases hmem with h3 | h3 | h3 | h3 | h3
          · exact absurd h3 ha
          · exact Or.inl (h2.trans h3)
          · exact Or.inr (Or.inl (h2.trans h3))
          · exact Or.inr (Or.inr (Or.inl (h2.trans h3)))
          · exact Or.inr (Or.inr (Or.inr (h2.trans h3)))
        · exact ih p h2
    | prev hr hst hsub ih =>
      rw [prevQuestion_answers]
      exact ih
    | next hr hst hsub ih =>
      rw [nextQuestion_answers]
      exact ih
    | submit hr hst hsub ih =>
      rw [submitExam_answers]
      exact ih
    | reset hr hsub ih => simp [initState]
  refine ⟨hmain, ?_⟩
  intro i
  cases hget : dictGet s.answers i with
  | none => simp
  | some v =>
    have hv := hmain (i, v) (dictGet_mem hget)
    simp only at hv
    have hne : v ≠ "Unattempted" := by
      rcases hv with h1 | h1 | h1 | h1 <;> subst h1 <;> decide
    simp [hne]

/-- Witness for C10: the state reached by starting the exam and answering
"A" to question 0 is reachable and satisfies the invariant. -/
theorem answers_invariant_witness :
    Reachable (handleAnswerRadio (startExam initState ["Q1"] []) "A") ∧
    ((∀ p ∈ (handleAnswerRadio (startExam initState ["Q1"] []) "A").answers,
        p.2 = "A" ∨ p.2 = "B" ∨ p.2 = "C" ∨ p.2 = "D") ∧
     (∀ i : Nat,
       ((dictGet (handleAnswerRadio (startExam initState ["Q1"] []) "A").answers i).getD
           "Unattempted" = "Unattempted" ↔
         dictGet (handleAnswerRadio (startExam initState ["Q1"] []) "A").answers i =
           none))) := by
  have hr : Reachable (handleAnswerRadio (startExam initState ["Q1"] []) "A") :=
    Reachable.answer "A" (Reachable.start ["Q1"] [] Reachable.init rfl) rfl rfl (by decide)
  exact ⟨hr, answers_invariant _ hr⟩

/-! ## Lemmas about marker scanning -/

theorem markerAt_nil : markerAt [] = none := rfl

theorem markerAt_bounds {s : List Char} {L : Nat} (h : markerAt s = some L) :
    3 ≤ L ∧ L ≤ s.length := by
  unfold markerAt at h
  split at h
  · rename_i hc
    obtain ⟨h1, h2, h3⟩ := hc
    injection h with hL
    obtain ⟨c2, hc2⟩ : ∃ c, s[digitRun s + 1]? = some c := by
      cases hx : s[digitRun s + 1]? with
      | none => rw [hx] at h3; exact absurd h3 (by simp)
      | some c => exact ⟨c, rfl⟩
    obtain ⟨hlt, -⟩ := List.getElem?_eq_some.mp hc2
    omega
  · exact absurd h (by simp)

theorem findMarker_nil : findMarker [] = none := rfl

theorem findMarker_cons (c : Char) (rest : List Char) :
    findMarker (c :: rest) =
      if (markerAt (c :: rest)).isSome then some 0
      else (findMarker rest).map (fun p => p + 1) := rfl

theorem findMarker_isSome {text : List Char} {p : Nat} (h : findMarker text = some p) :
    (markerAt (text.drop p)).isSome := by
  induction text generalizing p with
  | nil => exact absurd h (by simp [findMarker_nil])
  | cons c rest ih =>
    rw [findMarker_cons] at h
    by_cases hm : (markerAt (c :: rest)).isSome
    · rw [if_pos hm] at h
      injection h with hp
      rw [← hp]
      exact hm
    · rw [if_neg hm] at h
      cases hq : findMarker rest with
      | none => rw [hq] at h; exact absurd h (by simp)
      | some q =>
        rw [hq] at h
        injection h with hp
        rw [← hp]
        exact ih hq

theorem findMarker_cons_none {c : Char} {rest : List Char}
    (h : findMarker (c :: rest) = none) :
    markerAt (c :: rest) = none ∧ findMarker rest = none := by
  rw [findMarker_cons] at h
  by_cases hm : (markerAt (c :: rest)).isSome
  · rw [if_pos hm] at h
    exact absurd h (by simp)
  · rw [if_neg hm] at h
    cases hq : findMarker rest with
    | none => exact ⟨Option.not_isSome_iff_eq_none.mp hm, rfl⟩
    | some q => rw [hq] at h; exact absurd h (by simp)

theorem findMarker_of_markerAt {text : List Char} (h : (markerAt text).isSome) :
    findMarker text = some 0 := by
  cases text with
  | nil => rw [markerAt_nil] at h; exact absurd h (by simp)
  | cons c rest => rw [findMarker_cons, if_pos h]

theorem findMarker_drop_self {text : List Char} {p : Nat}
    (h : findMarker text = some p) : findMarker (text.drop p) = some 0 :=
  findMarker_of_markerAt (findMarker_isSome h)

theorem reFindAll_of_none {text : List Char} (h : findMarker text = none)
    (fuel : Nat) : reFindAll fuel text = [] := by
  cases fuel with
  | zero => rfl
  | succ fuel => simp [reFindAll, h]

theorem markerSpans_of_none {text : List Char} (h : findMarker text = none)
    (fuel : Nat) : markerSpans fuel text = [] := by
  cases fuel with
  | zero => rfl
  | succ fuel => simp [markerSpans, h]

theorem markerCount_nil (fuel : Nat) : markerCount fuel [] = 0 := by
  cases fuel <;> rfl

theorem markerCount_cons_none {c : Char} {rest : List Char}
    (h : markerAt (c :: rest) = none) (fuel : Nat) :
    markerCount (fuel + 1) (c :: rest) = markerCount fuel rest := by
  simp [markerCount, h]

theorem markerCount_cons_some {c : Char} {rest : List Char} {L : Nat}
    (h : markerAt (c :: rest) = some L) (fuel : Nat) :
    markerCount (fuel + 1) (c :: rest) = markerCount fuel ((c :: rest).drop L) + 1 := by
  simp [markerCount, h]

theorem markerCount_of_none {text : List Char} (h : findMarker text = none) :
    ∀ fuel, markerCount fuel text = 0 := by
  induction text with
  | nil => exact markerCount_nil
  | cons c rest ih =>
    intro fuel
    obtain ⟨hm, hrest⟩ := findMarker_cons_none h
    cases fuel with
    | zero => rfl
    | succ fuel => rw [markerCount_cons_none hm, ih hrest]

theorem markerCount_fuel_eq : ∀ (fuel : Nat) (text : List Char), text.length ≤ fuel →
    markerCount fuel text = markerCount text.length text := by
  intro fuel
  induction fuel using Nat.strong_induction_on with
  | _ fuel ih =>
    intro text hlen
    cases text with
    | nil => rw [markerCount_nil, markerCount_nil]
    | cons c rest =>
      cases fuel with
      | zero => simp at hlen
      | succ fuel =>
        have hlen2 : rest.length ≤ fuel := by
          simp only [List.length_cons] at hlen
          omega
        cases hm : markerAt (c :: rest) with
        | none =>
          rw [markerCount_cons_none hm, List.length_cons, markerCount_cons_none hm]
          exact ih fuel (Nat.lt_succ_self fuel) rest hlen2
        | some L =>
          obtain ⟨h3, hle⟩ := markerAt_bounds hm
          rw [markerCount_cons_some hm, List.length_cons, markerCount_cons_some hm]
          congr 1
          have hdl : ((c :: rest).drop L).length ≤ rest.length := by
            rw [List.length_drop, List.length_cons]
            omega
          rw [ih fuel (Nat.lt_succ_self fuel) _ (le_trans hdl hlen2)]
          rw [ih rest.length (by omega) _ hdl]

theorem findMarker_of_markerCount_zero : ∀ (fuel : Nat) (text : List Char),
    text.length ≤ fuel → markerCount fuel text = 0 → findMarker text = none := by
  intro fuel
  induction fuel using Nat.strong_induction_on with
  | _ fuel ih =>
    intro text hlen h0
    cases text with
    | nil => rfl
    | cons c rest =>
      cases fuel with
      | zero => simp at hlen
      | succ fuel =>
        cases hm : markerAt (c :: rest) with
        | some L =>
          rw [markerCount_cons_some hm] at h0
          omega
        | none =>
          rw [markerCount_cons_none hm] at h0
          have hrest : findMarker rest = none := by
            apply ih fuel (Nat.lt_succ_self fuel) rest ?_ h0
            simp only [List.length_cons] at hlen
            omega
          rw [findMarker_cons, hm]
          simp [hrest]

theorem markerCount_skip {text : List Char} {p : Nat} (h : findMarker text = some p) :
    markerCount text.length text = markerCount (text.drop p).length (text.drop p) := by
  induction text generalizing p with
  | nil => exact absurd h (by simp [findMarker_nil])
  | cons c rest ih =>
    rw [findMarker_cons] at h
    by_cases hm : (markerAt (c :: rest)).isSome
    · rw [if_pos hm] at h
      injection h with hp
      rw [← hp, List.drop_zero]
    · rw [if_neg hm] at h
      cases hq : findMarker rest with
      | none => rw [hq] at h; exact absurd h (by simp)
      | some q =>
        rw [hq] at h
        injection h with hp
        rw [← hp]
        have hm0 : markerAt (c :: rest) = none := Option.not_isSome_iff_eq_none.mp hm
        rw [List.length_cons, markerCount_cons_none hm0,
          show (c :: rest).drop (q + 1) = rest.drop q from rfl]
        exact ih hq

theorem markerCount_marker {s : List Char} {L : Nat} (h : markerAt s = some L) :
    markerCount s.length s = markerCount (s.drop L).length (s.drop L) + 1 := by
  obtain ⟨h3, hle⟩ := markerAt_bounds h
  cases s with
  | nil => simp at hle; omega
  | cons c rest =>
    rw [List.length_cons, markerCount_cons_some h]
    congr 1
    apply markerCount_fuel_eq
    rw [List.length_drop, List.length_cons]
    simp only [List.length_cons] at hle
    omega

/-! ## Lemmas about the lazy tail -/

theorem lazyTailLen_of_findMarker {tail : List Char} {q : Nat}
    (h : findMarker tail = some q) : lazyTailLen tail = q := by
  induction tail generalizing q with
  | nil => exact absurd h (by simp [findMarker_nil])
  | cons c rest ih =>
    rw [findMarker_cons] at h
    by_cases hm : (markerAt (c :: rest)).isSome
    · rw [if_pos hm] at h
      injection h with hp
      rw [← hp]
      simp [lazyTailLen, hm]
    · rw [if_neg hm] at h
      cases hq : findMarker rest with
      | none => rw [hq] at h; exact absurd h (by simp)
      | some q2 =>
        rw [hq] at h
        injection h with hp
        rw [← hp]
        have hcond : ¬((markerAt (c :: rest)).isSome = true ∨ c :: rest = ['\n']) := by
          rintro (h1 | h1)
          · exact hm h1
          · injection h1 with h2 h3
            rw [h3] at hq
            exact absurd hq (by simp [findMarker_nil])
        simp only [lazyTailLen, if_neg hcond]
        rw [ih hq]

theorem lazyTailLen_of_none {tail : List Char} (h : findMarker tail = none) :
    tail.drop (lazyTailLen tail) = [] ∨ tail.drop (lazyTailLen tail) = ['\n'] := by
  induction tail with
  | nil => left; rfl
  | cons c rest ih =>
    obtain ⟨hm, hrest⟩ := findMarker_cons_none h
    by_cases hnl : c :: rest = ['\n']
    · right
      have h0 : lazyTailLen (c :: rest) = 0 := by
        simp [lazyTailLen, hnl]
      rw [h0, List.drop_zero]
      exact hnl
    · have hcond : ¬((markerAt (c :: rest)).isSome = true ∨ c :: rest = ['\n']) := by
        rintro (h1 | h1)
        · rw [hm] at h1
          exact absurd h1 (by simp)
        · exact hnl h1
      simp only [lazyTailLen, if_neg hcond, List.drop_succ_cons]
      exact ih hrest

theorem lazyTailLen_le (tail : List Char) : lazyTailLen tail ≤ tail.length := by
  induction tail with
  | nil => exact le_refl 0
  | cons c rest ih =>
    by_cases hcond : (markerAt (c :: rest)).isSome = true ∨ c :: rest = ['\n']
    · simp only [lazyTailLen, if_pos hcond]
      omega
    · simp only [lazyTailLen, if_neg hcond, List.length_cons]
      omega

/-! ## Strip lemmas -/

theorem pyStrip_append_ws {c : Char} (hc : pyIsSpace c = true) (l : List Char) :
    pyStrip (l ++ [c]) = pyStrip l := by
  unfold pyStrip
  rw [List.dropWhile_append]
  by_cases hE : (l.dropWhile pyIsSpace).isEmpty
  · rw [if_pos hE]
    have h1 : List.dropWhile pyIsSpace [c] = [] := by
      simp [List.dropWhile_cons, hc]
    have h2 : l.dropWhile pyIsSpace = [] := by
      cases hx : l.dropWhile pyIsSpace with
      | nil => rfl
      | cons a as => rw [hx] at hE; simp at hE
    rw [h1, h2]
  · rw [if_neg hE, List.reverse_append, List.reverse_singleton, List.singleton_append,
      List.dropWhile_cons_of_pos hc]

theorem pyStrip_take_lazy {s : List Char} {L : Nat} (hL : L ≤ s.length)
    (h : findMarker (s.drop L) = none) :
    pyStrip (s.take (L + lazyTailLen (s.drop L))) = pyStrip s := by
  rcases lazyTailLen_of_none h with hdrop | hdrop
  · have ht : (s.drop L).length ≤ lazyTailLen (s.drop L) := List.drop_eq_nil_iff.mp hdrop
    rw [List.length_drop] at ht
    rw [List.take_of_length_le (by omega)]
  · have hsplit : (s.drop L).take (lazyTailLen (s.drop L)) ++ ['\n'] = s.drop L := by
      conv_rhs => rw [← List.take_append_drop (lazyTailLen (s.drop L)) (s.drop L)]
      rw [hdrop]
    calc pyStrip (s.take (L + lazyTailLen (s.drop L)))
        = pyStrip (s.take L ++ (s.drop L).take (lazyTailLen (s.drop L))) := by
          rw [List.take_add]
      _ = pyStrip ((s.take L ++ (s.drop L).take (lazyTailLen (s.drop L))) ++ ['\n']) :=
          (pyStrip_append_ws (by decide) _).symm
      _ = pyStrip (s.take L ++ ((s.drop L).take (lazyTailLen (s.drop L)) ++ ['\n'])) := by
          rw [List.append_assoc]
      _ = pyStrip (s.take L ++ s.drop L) := by rw [hsplit]
      _ = pyStrip s := by rw [List.take_append_drop]

/-! ## Unfolding lemmas for the scanners -/

theorem reFindAll_succ {text : List Char} {p L : Nat} (hp : findMarker text = some p)
    (hL : markerAt (text.drop p) = some L) (fuel : Nat) :
    reFindAll (fuel + 1) text =
      (text.drop p).take (L + lazyTailLen ((text.drop p).drop L)) ::
        reFindAll fuel (((text.drop p).drop L).drop (lazyTailLen ((text.drop p).drop L))) := by
  simp only [reFindAll, hp, hL]

theorem markerSpans_succ_none {text : List Char} {p L : Nat}
    (hp : findMarker text = some p) (hL : markerAt (text.drop p) = some L)
    (hq : findMarker ((text.drop p).drop L) = none) (fuel : Nat) :
    markerSpans (fuel + 1) text = [text.drop p] := by
  simp only [markerSpans, hp, hL, hq]

theorem markerSpans_succ_some {text : List Char} {p L q : Nat}
    (hp : findMarker text = some p) (hL : markerAt (text.drop p) = some L)
    (hq : findMarker ((text.drop p).drop L) = some q) (fuel : Nat) :
    markerSpans (fuel + 1) text =
      (text.drop p).take (L + q) :: markerSpans fuel (((text.drop p).drop L).drop q) := by
  simp only [markerSpans, hp, hL, hq]

/-! ## Equivalence of the regex scan and the spec-side span splitting -/

theorem reFindAll_strip_eq : ∀ (fuel : Nat) (text : List Char), text.length ≤ fuel →
    (reFindAll fuel text).map pyStrip = (markerSpans fuel text).map pyStrip := by
  intro fuel
  induction fuel using Nat.strong_induction_on with
  | _ fuel ih =>
    intro text hlen
    cases fuel with
    | zero => rfl
    | succ fuel =>
      cases hp : findMarker text with
      | none => rw [reFindAll_of_none hp, markerSpans_of_none hp]
      | some p =>
        have hms := findMarker_isSome hp
        cases hL : markerAt (text.drop p) with
        | none => rw [hL] at hms; exact absurd hms (by simp)
        | some L =>
          obtain ⟨h3, hLle⟩ := markerAt_bounds hL
          have hslen : (text.drop p).length ≤ text.length := by
            rw [List.length_drop]
            omega
          rw [reFindAll_succ hp hL]
          cases hq : findMarker ((text.drop p).drop L) with
          | none =>
            rw [markerSpans_succ_none hp hL hq]
            have hrest : findMarker (((text.drop p).drop L).drop
                (lazyTailLen ((text.drop p).drop L))) = none := by
              rcases lazyTailLen_of_none hq with hd | hd <;> rw [hd]
              · exact findMarker_nil
              · decide
            rw [reFindAll_of_none hrest fuel]
            simp only [List.map_cons, List.map_nil]
            rw [pyStrip_take_lazy hLle hq]
          | some q =>
            rw [markerSpans_succ_some hp hL hq, lazyTailLen_of_findMarker hq]
            simp only [List.map_cons]
            congr 1
            apply ih fuel (Nat.lt_succ_self fuel)
            rw [List.length_drop, List.length_drop, List.length_drop]
            omega

theorem markerSpans_length : ∀ (fuel : Nat) (text : List Char), text.length ≤ fuel →
    (markerSpans fuel text).length = markerCount text.length text := by
  intro fuel
  induction fuel using Nat.strong_induction_on with
  | _ fuel ih =>
    intro text hlen
    cases fuel with
    | zero =>
      have htext : text = [] := List.length_eq_zero.mp (Nat.le_zero.mp hlen)
      rw [htext]
      rfl
    | succ fuel =>
      cases hp : findMarker text with
      | none =>
        rw [markerSpans_of_none hp, markerCount_of_none hp]
        rfl
      | some p =>
        have hms := findMarker_isSome hp
        cases hL : markerAt (text.drop p) with
        | none => rw [hL] at hms; exact absurd hms (by simp)
        | some L =>
          obtain ⟨h3, hLle⟩ := markerAt_bounds hL
          have hskip := markerCount_skip hp
          have hmark := markerCount_marker hL
          cases hq : findMarker ((text.drop p).drop L) with
          | none =>
            rw [markerSpans_succ_none hp hL hq, hskip, hmark,
              markerCount_of_none hq]
            simp
          | some q =>
            rw [markerSpans_succ_some hp hL hq]
            simp only [List.length_cons]
            rw [hskip, hmark, markerCount_skip hq]
            congr 1
            apply ih fuel (Nat.lt_succ_self fuel)
            rw [List.length_drop] at hLle
            rw [List.length_drop, List.length_drop, List.length_drop]
            omega

theorem markerSpans_flatten : ∀ (fuel : Nat) (text : List Char) (p : Nat),
    text.length ≤ fuel → findMarker text = some p →
    (markerSpans fuel text).flatten = text.drop p := by
  intro fuel
  induction fuel using Nat.strong_induction_on with
  | _ fuel ih =>
    intro text p hlen hp
    cases fuel with
    | zero =>
      have htext : text = [] := List.length_eq_zero.mp (Nat.le_zero.mp hlen)
      rw [htext] at hp
      exact absurd hp (by simp [findMarker_nil])
    | succ fuel =>
      have hms := findMarker_isSome hp
      cases hL : markerAt (text.drop p) with
      | none => rw [hL] at hms; exact absurd hms (by simp)
      | some L =>
        obtain ⟨h3, hLle⟩ := markerAt_bounds hL
        cases hq : findMarker ((text.drop p).drop L) with
        | none =>
          rw [markerSpans_succ_none hp hL hq]
          simp
        | some q =>
          rw [markerSpans_succ_some hp hL hq, List.flatten_cons]
          have h0 : findMarker (((text.drop p).drop L).drop q) = some 0 :=
            findMarker_drop_self hq
          have hrec := ih fuel (Nat.lt_succ_self fuel)
            (((text.drop p).drop L).drop q) 0 ?_ h0
          · rw [hrec, List.drop_zero, List.drop_drop, List.take_append_drop]
          · rw [List.length_drop] at hLle
            rw [List.length_drop, List.length_drop, List.length_drop]
            omega

/-- C5: for every input text on which the boundary pattern (one or more
digits, a period, a whitespace) occurs N ≥ 1 times (leftmost,
non-overlapping), extraction returns exactly N entries in text order; each
entry is the whitespace-trimmed span running from its marker up to (but not
including) the next marker, the last one to the end of the text, the spans
jointly tiling the text from the first marker on, matched across newlines. -/
theorem extraction_spec (text : List Char)
    (h : 1 ≤ markerCount text.length text) :
    extract_questions_from_pdf text = (markerSpans text.length text).map pyStrip ∧
    (extract_questions_from_pdf text).length = markerCount text.length text ∧
    ∃ p, findMarker text = some p ∧
      (markerSpans text.length text).flatten = text.drop p := by
  cases hp : findMarker text with
  | none =>
    have h0 := markerCount_of_none hp text.length
    omega
  | some p =>
    have hms := findMarker_isSome hp
    cases hL : markerAt (text.drop p) with
    | none => rw [hL] at hms; exact absurd hms (by simp)
    | some L =>
      obtain ⟨h3, hLle⟩ := markerAt_bounds hL
      have hlen3 : 3 ≤ text.length := by
        rw [List.length_drop] at hLle
        omega
      have hne : reFindAll text.length text ≠ [] := by
        obtain ⟨fuel, hfuel⟩ : ∃ fuel, text.length = fuel + 1 :=
          ⟨text.length - 1, by omega⟩
        rw [hfuel, reFindAll_succ hp hL]
        simp
      obtain ⟨a, l, hcons⟩ := List.exists_cons_of_ne_nil hne
      have hext : extract_questions_from_pdf text =
          (reFindAll text.length text).map pyStrip := by
        unfold extract_questions_from_pdf
        rw [hcons]
        rfl
      have hmapeq := reFindAll_strip_eq text.length text (le_refl _)
      refine ⟨?_, ?_, p, rfl, markerSpans_flatten text.length text p (le_refl _) hp⟩
      · rw [hext, hmapeq]
      · have hlens := congrArg List.length hmapeq
        rw [List.length_map, List.length_map] at hlens
        rw [hext, List.length_map, hlens,
          markerSpans_length text.length text (le_refl _)]

/-- C6: for every input text on which the boundary pattern never matches
(the empty string included), extraction returns exactly the one-element list
holding the advisory placeholder — never an empty list, and (being a total
function) never an error. -/
theorem extraction_empty_spec (text : List Char)
    (h : markerCount text.length text = 0) :
    extract_questions_from_pdf text = [placeholderMsg] ∧
    (extract_questions_from_pdf text).length = 1 := by
  have hp : findMarker text = none :=
    findMarker_of_markerCount_zero text.length text (le_refl _) h
  have hempty : reFindAll text.length text = [] := reFindAll_of_none hp _
  unfold extract_questions_from_pdf
  rw [hempty]
  exact ⟨rfl, rfl⟩

/-- Witness for C5: the concrete text "1. foo\n2. bar" carries two boundary
markers, and the theorem's conclusion holds there. -/
theorem extraction_spec_witness :
    1 ≤ markerCount ("1. foo\n2. bar".toList).length "1. foo\n2. bar".toList ∧
    (extract_questions_from_pdf "1. foo\n2. bar".toList =
        (markerSpans ("1. foo\n2. bar".toList).length "1. foo\n2. bar".toList).map pyStrip ∧
      (extract_questions_from_pdf "1. foo\n2. bar".toList).length =
        markerCount ("1. foo\n2. bar".toList).length "1. foo\n2. bar".toList ∧
      ∃ p, findMarker "1. foo\n2. bar".toList = some p ∧
        (markerSpans ("1. foo\n2. bar".toList).length "1. foo\n2. bar".toList).flatten =
          ("1. foo\n2. bar".toList).drop p) :=
  ⟨by decide, extraction_spec "1. foo\n2. bar".toList (by decide)⟩

/-- Witness for C6: the empty text has zero boundary markers, and extraction
on it yields exactly the advisory placeholder. -/
theorem extraction_empty_spec_witness :
    markerCount ("".toList).length "".toList = 0 ∧
    (extract_questions_from_pdf "".toList = [placeholderMsg] ∧
      (extract_questions_from_pdf "".toList).length = 1) :=
  ⟨by decide, extraction_empty_spec "".toList (by decide)⟩

end ExamAnalyzer
